import Mathlib

/-!
Shallow embedding of the incremental style-resolution engine of the VIZIA UI
toolkit, covering the code in `crates/vizia_core/src/systems/style.rs` and
`core/src/context.rs`:

* the selector matcher (`Element` impl for `Node`, `match_non_ts_pseudo_class`),
* rule matching (`compute_matched_rules`, including the
  sort-by-specificity-then-reverse ordering),
* the sibling matched-rule cache (`has_same_selector`, the cache search with
  its positional-component invalidation check inside `style_system`),
* the restyle driver (`style_system`: inline inheritance, breadth-first
  matching over the dirty set, shared inheritance, redraw delivery),
* transitive entity removal (`Context::remove`).

Entities are modelled as naturals (the root entity is `0`); machine structures
whose implementations are outside the extracted sources (the entity tree of
`vizia_storage`, the per-property `StyleSet` stores of `vizia_style`, and the
per-property link step) are modelled from the specification; each such
definition carries a doc comment saying so.

Selector matching in the source goes through the external `selectors` crate;
the selector language embedded here is the feature set the specification
declares supported (universal/type/id/class selectors, positional `nth-child`
family pseudo-classes, state pseudo-classes, `:lang()`/`:dir()`/custom as
unsupported, and descendant/child/sibling combinators), with the entity-facing
reads taken from the `Element` impl in `style.rs`.  A `none` result of a
matching function models a Rust panic (`todo!()`).
-/

namespace Vizia

abbrev Entity := Nat

/-- Modelled from the spec: the entity tree of `vizia_storage` (not under the
extracted sources).  `parentOf` is the layout-parent relation, `childrenOf`
lists layout children in order, and `fuel` bounds tree depth for traversals. -/
structure Tree where
  parentOf : Entity → Option Entity
  childrenOf : Entity → List Entity
  fuel : Nat

/-- Modelled from the spec: `Tree::is_first_child`.  A root (no layout parent)
is treated as a first child, forcing the full-match path in the driver. -/
def Tree.isFirstChild (t : Tree) (e : Entity) : Bool :=
  match t.parentOf e with
  | some p => (t.childrenOf p).head? == some e
  | none => true

/-- Modelled from the spec: `Tree::is_last_child`. -/
def Tree.isLastChild (t : Tree) (e : Entity) : Bool :=
  match t.parentOf e with
  | some p => (t.childrenOf p).getLast? == some e
  | none => true

/-- Layout siblings strictly before `e`, nearest first (the order the
`prev_sibling_element` chain visits them). -/
def Tree.earlierSibs (t : Tree) (e : Entity) : List Entity :=
  match t.parentOf e with
  | some p => ((t.childrenOf p).takeWhile (fun x => !(x == e))).reverse
  | none => []

/-- Layout siblings strictly after `e`, nearest first. -/
def Tree.laterSibs (t : Tree) (e : Entity) : List Entity :=
  match t.parentOf e with
  | some p => ((t.childrenOf p).dropWhile (fun x => !(x == e))).drop 1
  | none => []

/-- `Tree::get_prev_layout_sibling`. -/
def Tree.prevSib (t : Tree) (e : Entity) : Option Entity := (t.earlierSibs e).head?

/-- `Tree::get_next_layout_sibling`. -/
def Tree.nextSib (t : Tree) (e : Entity) : Option Entity := (t.laterSibs e).head?

/-- Modelled from the spec: breadth-first traversal (`TreeBreadthIterator::full`). -/
def Tree.bfsAux (t : Tree) : Nat → List Entity → List Entity
  | 0, _ => []
  | _ + 1, [] => []
  | n + 1, frontier => frontier ++ t.bfsAux n ((frontier.map t.childrenOf).flatten)

/-- Breadth-first listing of the whole tree starting at the root entity `0`. -/
def Tree.bfs (t : Tree) : List Entity := t.bfsAux t.fuel [0]

/-- Modelled from the spec: depth-first traversal (`tree.into_iter()`),
parents before children. -/
def Tree.dfsAux (t : Tree) : Nat → Entity → List Entity
  | 0, _ => []
  | n + 1, e => e :: ((t.childrenOf e).map (t.dfsAux n)).flatten

/-- Depth-first listing of the whole tree starting at the root entity `0`. -/
def Tree.dfs (t : Tree) : List Entity := t.dfsAux t.fuel 0

/-! ### Selector language -/

inductive PseudoClassSel where
  | state (mask : Nat)
  | enabled
  | disabled
  | lang (s : String)
  | dir (s : String)
  | custom (s : String)
deriving DecidableEq

inductive NthTy where
  | child
  | lastChild
  | onlyChild
deriving DecidableEq

inductive SimpleComponent where
  | universal
  | typeSel (name : String)
  | idSel (name : String)
  | classSel (name : String)
  | nth (ty : NthTy) (a b : Int)
  | pseudo (pc : PseudoClassSel)
deriving DecidableEq

inductive Comb where
  | child
  | descendant
  | next
  | later
deriving DecidableEq

/-- A selector, stored in matching order: the constructor argument `c` of
`Sel.cons` is the rightmost (subject-side) compound, `rest` the part left of
the combinator `k`. -/
inductive Sel where
  | last (c : List SimpleComponent)
  | cons (c : List SimpleComponent) (k : Comb) (rest : Sel)
deriving DecidableEq

/-- The rightmost compound of a selector: the one `Selector::iter()` yields
without a `next_sequence` call. -/
def Sel.subject : Sel → List SimpleComponent
  | .last c => c
  | .cons c _ _ => c

/-- Specificity contribution of one component, packed like the `selectors`
crate: ids in the high field, class-like components (classes, all
pseudo-classes) in the middle, type selectors in the low field. -/
def compSpec : SimpleComponent → Nat
  | .universal => 0
  | .typeSel _ => 1
  | .idSel _ => 1 <<< 20
  | .classSel _ => 1 <<< 10
  | .nth _ _ _ => 1 <<< 10
  | .pseudo _ => 1 <<< 10

def compoundSpec (c : List SimpleComponent) : Nat :=
  c.foldl (fun acc x => acc + compSpec x) 0

/-- `Selector::specificity()`: summed over every compound of the selector. -/
def Sel.specOf : Sel → Nat
  | .last c => compoundSpec c
  | .cons c _ rest => compoundSpec c + rest.specOf

/-! ### The matcher's view of an entity -/

/-- The read-only data selector matching consults: the borrowed tables behind
`Node` in `style.rs` (`tree`, `views` element names, `style.ids`,
`style.classes`, `style.pseudo_classes`, `style.disabled`), plus the rule set. -/
structure MatchView where
  tree : Tree
  element : Entity → Option String
  ids : Entity → Option String
  classes : Entity → Option (List String)
  pseudoClasses : Entity → Option Nat
  disabledRes : Entity → Option Bool
  rules : List (Nat × List Sel)

/-- `Node::match_non_ts_pseudo_class`: state pseudo-classes read the flag
record; `:enabled`/`:disabled` read the disabled store; `:lang()`, `:dir()`
and custom pseudo-classes hit `todo!()` (modelled as `none`).  When the entity
has no pseudo-class flag record the whole match returns `false`. -/
def MatchView.matchNonTs (v : MatchView) (e : Entity) (pc : PseudoClassSel) : Option Bool :=
  match v.pseudoClasses e with
  | some bits =>
    match pc with
    | .state mask => some (bits &&& mask == mask)
    | .enabled => some (match v.disabledRes e with | some d => !d | none => true)
    | .disabled => some ((v.disabledRes e).getD false)
    | .lang _ => none
    | .dir _ => none
    | .custom _ => none
  | none => some false

/-- CSS `An+B` matching of a 1-based index: some `k ≥ 0` with `i = a*k + b`. -/
def nthMatches (a b : Int) (i : Nat) : Bool :=
  (List.range (i + b.natAbs + 1)).any (fun k => (i : Int) == a * (k : Int) + b)

/-- 1-based position of `e` among its layout siblings (a parentless entity
counts as position 1, matching prev-sibling counting). -/
def MatchView.idxFromStart (v : MatchView) (e : Entity) : Nat :=
  (v.tree.earlierSibs e).length + 1

/-- 1-based position of `e` counted from the end of its layout siblings. -/
def MatchView.idxFromEnd (v : MatchView) (e : Entity) : Nat :=
  (v.tree.laterSibs e).length + 1

/-- `Node::has_local_name`: false when the entity's view has no element name. -/
def MatchView.hasLocalName (v : MatchView) (e : Entity) (n : String) : Bool :=
  match v.element e with
  | some el => el == n
  | none => false

/-- `Node::has_id`: false when the entity has no id record. -/
def MatchView.hasId (v : MatchView) (e : Entity) (n : String) : Bool :=
  match v.ids e with
  | some i => i == n
  | none => false

/-- `Node::has_class`: false when the entity has no class record. -/
def MatchView.hasClass (v : MatchView) (e : Entity) (n : String) : Bool :=
  match v.classes e with
  | some cs => cs.contains n
  | none => false

/-- Matching one simple component against an entity, per the `Element` impl:
`has_local_name`, `has_id`, `has_class` return `false` when the record is
absent; positional pseudo-classes are evaluated against the layout sibling
chain. -/
def MatchView.matchComponent (v : MatchView) (e : Entity) : SimpleComponent → Option Bool
  | .universal => some true
  | .typeSel n => some (v.hasLocalName e n)
  | .idSel n => some (v.hasId e n)
  | .classSel n => some (v.hasClass e n)
  | .nth .child a b => some (nthMatches a b (v.idxFromStart e))
  | .nth .lastChild a b => some (nthMatches a b (v.idxFromEnd e))
  | .nth .onlyChild _ _ => some ((v.tree.prevSib e).isNone && (v.tree.nextSib e).isNone)
  | .pseudo pc => v.matchNonTs e pc

/-- Short-circuit conjunction over a compound's components. -/
def MatchView.matchCompound (v : MatchView) (e : Entity) : List SimpleComponent → Option Bool
  | [] => some true
  | c :: rest =>
    match v.matchComponent e c with
    | none => none
    | some false => some false
    | some true => v.matchCompound e rest

mutual

/-- Right-to-left selector matching (`matches_selector`): the subject compound
first, then the combinator walk over the layout ancestry/sibling chain.  The
fuel argument bounds recursion depth (selector nesting, ancestor chains and
sibling walks); exhausted fuel reads as "no match", and callers pass the
tree's ample fuel bound. -/
def matchSel (v : MatchView) : Nat → Sel → Entity → Option Bool
  | 0, _, _ => some false
  | _ + 1, .last c, e => v.matchCompound e c
  | fuel + 1, .cons c k rest, e =>
    match v.matchCompound e c with
    | none => none
    | some false => some false
    | some true =>
      match k with
      | .child =>
        match v.tree.parentOf e with
        | none => some false
        | some p => matchSel v fuel rest p
      | .descendant => matchAnc v fuel rest e
      | .next =>
        match v.tree.prevSib e with
        | none => some false
        | some s => matchSel v fuel rest s
      | .later => matchEarlier v fuel rest (v.tree.earlierSibs e)

/-- Walk of strict layout ancestors for the descendant combinator. -/
def matchAnc (v : MatchView) : Nat → Sel → Entity → Option Bool
  | 0, _, _ => some false
  | fuel + 1, rest, e =>
    match v.tree.parentOf e with
    | none => some false
    | some p =>
      match matchSel v fuel rest p with
      | none => none
      | some true => some true
      | some false => matchAnc v fuel rest p

/-- Walk of earlier layout siblings for the later-sibling combinator. -/
def matchEarlier (v : MatchView) : Nat → Sel → List Entity → Option Bool
  | 0, _, _ => some false
  | _ + 1, _, [] => some false
  | fuel + 1, rest, s :: ss =>
    match matchSel v fuel rest s with
    | none => none
    | some true => some true
    | some false => matchEarlier v fuel rest ss

end

/-! ### `compute_matched_rules` -/

/-- The inner selector loop of `compute_matched_rules`: the first selector of
the rule that matches determines the pushed specificity (`break`); `some none`
means the rule does not match, outer `none` a matching panic. -/
def findMatchingSel (v : MatchView) (e : Entity) : List Sel → Option (Option Nat)
  | [] => some none
  | s :: rest =>
    match matchSel v v.tree.fuel s e with
    | none => none
    | some true => some (some s.specOf)
    | some false => findMatchingSel v e rest

/-- The outer rule loop of `compute_matched_rules`: rules are visited in
declaration order (the rule set is an ordered map) and a matching rule pushes
`(rule, specificity)`. -/
def computeBaseAux (v : MatchView) (e : Entity) : List (Nat × List Sel) → Option (List (Nat × Nat))
  | [] => some []
  | (r, sels) :: rest =>
    match findMatchingSel v e sels with
    | none => none
    | some none => computeBaseAux v e rest
    | some (some sp) => (computeBaseAux v e rest).map (fun acc => (r, sp) :: acc)

/-- Stable insertion into an ascending-by-key list: inserted in front of the
first element whose key is not smaller. -/
def insertAsc (key : α → Nat) (x : α) : List α → List α
  | [] => [x]
  | y :: ys => if key y < key x then y :: insertAsc key x ys else x :: y :: ys

/-- Stable ascending sort by key: the extensional behaviour of Rust's stable
`sort_by_cached_key`. -/
def isortAsc (key : α → Nat) : List α → List α
  | [] => []
  | x :: xs => insertAsc key x (isortAsc key xs)

/-- `compute_matched_rules`: collect `(rule, specificity)` pairs of matching
rules, stable-sort ascending by specificity, then reverse. -/
def computeMatchedRules (v : MatchView) (e : Entity) : Option (List (Nat × Nat)) :=
  (computeBaseAux v e v.rules).map (fun l => (isortAsc (fun p => p.2) l).reverse)

/-! ### The sibling cache -/

/-- `has_same_selector`: element name and id compared with missing records
defaulted to the empty string; class sets compared by a two-way subset check
only when both entities have a class record; pseudo-class bit patterns
compared only when both entities have a flag record.  The source's early
`return false` guards are written as one conjunction of the same tests. -/
def has_same_selector (v : MatchView) (e1 e2 : Entity) : Bool :=
  ((v.element e1).getD ("") == (v.element e2).getD ("")) &&
  ((v.ids e1).getD ("") == (v.ids e2).getD ("")) &&
  (match v.classes e1, v.classes e2 with
   | some c1, some c2 => c2.all (fun n => c1.contains n) && c1.all (fun n => c2.contains n)
   | _, _ => true) &&
  (match v.pseudoClasses e1, v.pseudoClasses e2 with
   | some f1, some f2 => f1 == f2
   | _, _ => true)

/-- Rule-set lookup by rule identifier (`cx.style.rules.get(&rule)`). -/
def lookupRule (rules : List (Nat × List Sel)) (r : Nat) : Option (List Sel) :=
  (rules.find? (fun p => p.1 == r)).map (fun p => p.2)

/-- Is a component of the positional `nth-child`/`last-child`/`only-child`
family? -/
def isNthComp : SimpleComponent → Bool
  | .nth _ _ _ => true
  | _ => false

/-- The invalidation scan of the cache loop: `selector.iter()` yields only the
components of the subject (rightmost) compound, so only that compound is
examined for positional components. -/
def selHasPositionalSubject (s : Sel) : Bool := s.subject.any isNthComp

/-- Does any selector of rule `r` carry a positional component in its subject
compound? -/
def ruleHasPositional (rules : List (Nat × List Sel)) (r : Nat) : Bool :=
  match lookupRule rules r with
  | some sels => sels.any selHasPositionalSubject
  | none => false

/-- A positional component anywhere in the selector (the claim-level notion of
"contains a positional component"). -/
def selHasPositionalAnywhere : Sel → Bool
  | .last c => c.any isNthComp
  | .cons c _ rest => c.any isNthComp || selHasPositionalAnywhere rest

def ruleHasPositionalAnywhere (rules : List (Nat × List Sel)) (r : Nat) : Bool :=
  match lookupRule rules r with
  | some sels => sels.any selHasPositionalAnywhere
  | none => false

/-- A matched-rule cache entry (`MatchedRulesCache`). -/
structure CacheEntry where
  entity : Entity
  rules : List (Nat × Nat)
deriving DecidableEq

/-- The labelled cache loop of `style_system`: the first entry whose entity
passes `has_same_selector` is reused, unless one of its rules has a positional
component in a subject compound, in which case that entry is skipped
(`continue 'cache`) and the search goes on. -/
def findCacheMatch (v : MatchView) (e : Entity) : List CacheEntry → Option (List (Nat × Nat))
  | [] => none
  | entry :: rest =>
    if has_same_selector v entry.entity e then
      if entry.rules.any (fun rp => ruleHasPositional v.rules rp.1) then
        findCacheMatch v e rest
      else
        some entry.rules
    else
      findCacheMatch v e rest

/-! ### Property stores and inheritance -/

/-- Modelled from the spec: one inheritable property's storage tiers
(`vizia_style`'s `StyleSet`, not under the extracted sources).  The inline
tier holds explicit per-entity overrides and inline-inherited copies; the
shared tier holds rule-linked values and shared-inherited copies.  The
`...Explicit` flags distinguish locally-set values from inherited copies. -/
structure IProp (α : Type) [DecidableEq α] where
  inlineVal : Entity → Option α
  inlineExplicit : Entity → Bool
  sharedVal : Entity → Option α
  sharedExplicit : Entity → Bool

variable {α : Type} [DecidableEq α]

/-- Resolved value: inline tier wins over shared tier. -/
def IProp.get (p : IProp α) (e : Entity) : Option α :=
  (p.inlineVal e).orElse (fun _ => p.sharedVal e)

/-- Modelled from the spec: `inherit_inline` — when the child has no explicit
inline override, copy the parent's inline value down; report whether the
child's inline value changed. -/
def IProp.inheritInline (p : IProp α) (e par : Entity) : IProp α × Bool :=
  if p.inlineExplicit e then (p, false)
  else
    let newv := p.inlineVal par
    let changed := decide (p.inlineVal e ≠ newv)
    ({ p with inlineVal := fun x => if x = e then newv else p.inlineVal x }, changed)

/-- Modelled from the spec: `inherit_shared` — same copy-down from the shared
tier. -/
def IProp.inheritShared (p : IProp α) (e par : Entity) : IProp α × Bool :=
  if p.sharedExplicit e then (p, false)
  else
    let newv := p.sharedVal par
    let changed := decide (p.sharedVal e ≠ newv)
    ({ p with sharedVal := fun x => if x = e then newv else p.sharedVal x }, changed)

/-- An `IProp` with no stored values. -/
def IProp.empty : IProp α :=
  { inlineVal := fun _ => none
    inlineExplicit := fun _ => false
    sharedVal := fun _ => none
    sharedExplicit := fun _ => false }

/-- The rule-linkable inheritable properties of `style.rs`'s inheritance
passes (every one except `disabled`, which is never linked from rules). -/
structure LinkedProps where
  caret_color : IProp Nat
  selection_color : IProp Nat
  font_color : IProp Nat
  font_size : IProp Nat
  font_family : IProp Nat
  font_weight : IProp Nat
  font_slant : IProp Nat
  font_width : IProp Nat
  text_decoration_line : IProp Nat
  text_stroke_width : IProp Nat
  text_stroke_style : IProp Nat
  font_variation_settings : IProp Nat

def LinkedProps.empty : LinkedProps :=
  { caret_color := IProp.empty
    selection_color := IProp.empty
    font_color := IProp.empty
    font_size := IProp.empty
    font_family := IProp.empty
    font_weight := IProp.empty
    font_slant := IProp.empty
    font_width := IProp.empty
    text_decoration_line := IProp.empty
    text_stroke_width := IProp.empty
    text_stroke_style := IProp.empty
    font_variation_settings := IProp.empty }

/-- The inheritable property stores: `disabled` kept apart because the link
step never writes it (it is not a CSS property in `link_style_data`). -/
structure PropState where
  disabled : IProp Bool
  rest : LinkedProps

def PropState.empty : PropState :=
  { disabled := IProp.empty, rest := LinkedProps.empty }

/-- Result of an inheritance pass: updated stores, entities pushed to the
redraw list, entities marked as needing a text update. -/
structure InheritOut where
  props : PropState
  redraw : List Entity
  text : List Entity

/-- One entity's step of `inline_inheritance_system`: the
disabled/caret/selection group feeds the redraw list, the font/text group
feeds `needs_text_update`.  All `inherit_inline` calls run (the source uses
non-short-circuiting `|`). -/
def inlineInheritStep (t : Tree) (acc : InheritOut) (e : Entity) : InheritOut :=
  match t.parentOf e with
  | none => acc
  | some par =>
    let ps := acc.props
    let (d1, c1) := ps.disabled.inheritInline e par
    let (cc, c2) := ps.rest.caret_color.inheritInline e par
    let (sc, c3) := ps.rest.selection_color.inheritInline e par
    let (fc, f1) := ps.rest.font_color.inheritInline e par
    let (fs, f2) := ps.rest.font_size.inheritInline e par
    let (ff, f3) := ps.rest.font_family.inheritInline e par
    let (fw, f4) := ps.rest.font_weight.inheritInline e par
    let (fsl, f5) := ps.rest.font_slant.inheritInline e par
    let (fwi, f6) := ps.rest.font_width.inheritInline e par
    let (tdl, f7) := ps.rest.text_decoration_line.inheritInline e par
    let (tsw, f8) := ps.rest.text_stroke_width.inheritInline e par
    let (tss, f9) := ps.rest.text_stroke_style.inheritInline e par
    let (fvs, f10) := ps.rest.font_variation_settings.inheritInline e par
    let props :=
      { disabled := d1
        rest :=
          { caret_color := cc, selection_color := sc, font_color := fc, font_size := fs
            font_family := ff, font_weight := fw, font_slant := fsl, font_width := fwi
            text_decoration_line := tdl, text_stroke_width := tsw
            text_stroke_style := tss, font_variation_settings := fvs } }
    { props
      redraw := if c1 || c2 || c3 then acc.redraw ++ [e] else acc.redraw
      text :=
        if f1 || f2 || f3 || f4 || f5 || f6 || f7 || f8 || f9 || f10 then acc.text ++ [e]
        else acc.text }

/-- `inline_inheritance_system`: top-down traversal of the whole tree. -/
def inlineInheritanceSystem (t : Tree) (ps : PropState) : InheritOut :=
  t.dfs.foldl (inlineInheritStep t) { props := ps, redraw := [], text := [] }

/-- One entity's step of `shared_inheritance_system`: the font/text group
feeds `needs_text_update`, then caret/selection feed the redraw list. -/
def sharedInheritStep (t : Tree) (acc : InheritOut) (e : Entity) : InheritOut :=
  match t.parentOf e with
  | none => acc
  | some par =>
    let ps := acc.props
    let (fc, f1) := ps.rest.font_color.inheritShared e par
    let (fs, f2) := ps.rest.font_size.inheritShared e par
    let (ff, f3) := ps.rest.font_family.inheritShared e par
    let (fw, f4) := ps.rest.font_weight.inheritShared e par
    let (fsl, f5) := ps.rest.font_slant.inheritShared e par
    let (fwi, f6) := ps.rest.font_width.inheritShared e par
    let (tdl, f7) := ps.rest.text_decoration_line.inheritShared e par
    let (tsw, f8) := ps.rest.text_stroke_width.inheritShared e par
    let (tss, f9) := ps.rest.text_stroke_style.inheritShared e par
    let (fvs, f10) := ps.rest.font_variation_settings.inheritShared e par
    let (cc, c1) := ps.rest.caret_color.inheritShared e par
    let (sc, c2) := ps.rest.selection_color.inheritShared e par
    let props :=
      { disabled := ps.disabled
        rest :=
          { caret_color := cc, selection_color := sc, font_color := fc, font_size := fs
            font_family := ff, font_weight := fw, font_slant := fsl, font_width := fwi
            text_decoration_line := tdl, text_stroke_width := tsw
            text_stroke_style := tss, font_variation_settings := fvs } }
    { props
      redraw := if c1 || c2 then acc.redraw ++ [e] else acc.redraw
      text :=
        if f1 || f2 || f3 || f4 || f5 || f6 || f7 || f8 || f9 || f10 then acc.text ++ [e]
        else acc.text }

/-- `shared_inheritance_system`. -/
def sharedInheritanceSystem (t : Tree) (ps : PropState) (redraw text : List Entity) : InheritOut :=
  t.dfs.foldl (sharedInheritStep t) { props := ps, redraw := redraw, text := text }

/-! ### The restyle driver (`style_system`) -/

/-- The state `style_system` reads and writes.  `linkModel` is modelled from
the spec: the per-property body of `link_style_data` (each `StyleSet::link`
lives outside the extracted sources); it receives the linkable property
stores, the entity and its matched rule identifiers, and returns the updated
stores together with the should-redraw flag.  It cannot touch the dirty set,
the matcher-visible tables or the `disabled` store, which the source's link
step likewise never writes. -/
structure Ctx where
  tree : Tree
  element : Entity → Option String
  ids : Entity → Option String
  classes : Entity → Option (List String)
  pseudoClasses : Entity → Option Nat
  rules : List (Nat × List Sel)
  restyle : List Entity
  props : PropState
  linkModel : LinkedProps → Entity → List Nat → LinkedProps × Bool

/-- The matcher's view of a context, with the disabled store resolved from the
given property state. -/
def mkView (cx : Ctx) (ps : PropState) : MatchView :=
  { tree := cx.tree
    element := cx.element
    ids := cx.ids
    classes := cx.classes
    pseudoClasses := cx.pseudoClasses
    disabledRes := ps.disabled.get
    rules := cx.rules }

inductive Phase where
  | inlineInherit
  | matching
  | sharedInherit
deriving DecidableEq

/-- Mutable state of the matching loop.  `parentVar` and `cache` are the
source's `parent` variable and cache vector; `lp`/`redraw` the linkable stores
and redraw list; `assigned`, `cachePushes`, `cacheHits` and `fullMatched` are
ghost observations recording, per entity, its final matched-rule list and
whether the loop pushed a cache entry, reused one, or ran a full match. -/
structure LoopSt where
  parentVar : Option Entity
  cache : List CacheEntry
  lp : LinkedProps
  redraw : List Entity
  assigned : Entity → Option (List (Nat × Nat))
  cachePushes : List Entity
  cacheHits : List Entity
  fullMatched : List Entity

/-- Record the entity's matched rules and, when the list is non-empty, run the
link step (`if !matched_rules.is_empty() { link_style_data(...) }`). -/
def applyLink (cx : Ctx) (st : LoopSt) (e : Entity) (rules : List (Nat × Nat)) : LoopSt :=
  let st1 := { st with assigned := fun x => if x = e then some rules else st.assigned x }
  if rules.isEmpty then st1
  else
    let lr := cx.linkModel st1.lp e (rules.map (fun p => p.1))
    { st1 with lp := lr.1, redraw := if lr.2 then st1.redraw ++ [e] else st1.redraw }

/-- The full-match path: `compute_matched_rules` then a cache push. -/
def computeAndPush (cx : Ctx) (v : MatchView) (st : LoopSt) (e : Entity) : Option LoopSt :=
  match computeMatchedRules v e with
  | none => none
  | some rules =>
    let st1 :=
      { st with
        cache := st.cache ++ [{ entity := e, rules := rules }]
        cachePushes := st.cachePushes ++ [e]
        fullMatched := st.fullMatched ++ [e] }
    some (applyLink cx st1 e rules)

/-- One iteration of the matching loop of `style_system` for one traversal
entity: skip non-dirty entities; within an unchanged parent group (and not at
a first/last-child position) consult the cache before full matching; otherwise
reset the group and cache and force a full match. -/
def matchStep (cx : Ctx) (v : MatchView) (st : LoopSt) (e : Entity) : Option LoopSt :=
  if !(cx.restyle.contains e) then some st
  else
    if cx.tree.parentOf e == st.parentVar && !(cx.tree.isFirstChild e) && !(cx.tree.isLastChild e) then
      match findCacheMatch v e st.cache with
      | some rules =>
        some (applyLink cx { st with cacheHits := st.cacheHits ++ [e] } e rules)
      | none => computeAndPush cx v st e
    else
      computeAndPush cx v { st with parentVar := cx.tree.parentOf e, cache := [] } e

/-- The `for entity in iterator` loop. -/
def runLoop (cx : Ctx) (v : MatchView) : LoopSt → List Entity → Option LoopSt
  | st, [] => some st
  | st, e :: rest =>
    match matchStep cx v st e with
    | none => none
    | some st1 => runLoop cx v st1 rest

/-- Observable outcome of one `style_system` pass. -/
structure RunResult where
  props : PropState
  restyle : List Entity
  delivered : List Entity
  textUpdates : List Entity
  phases : List Phase
  assigned : Entity → Option (List (Nat × Nat))
  cachePushes : List Entity
  cacheHits : List Entity
  fullMatched : List Entity

def initLoopSt (lp : LinkedProps) : LoopSt :=
  { parentVar := none
    cache := []
    lp := lp
    redraw := []
    assigned := fun _ => none
    cachePushes := []
    cacheHits := []
    fullMatched := [] }

/-- The inline-inheritance phase of a pass. -/
def inlinePhase (cx : Ctx) : InheritOut := inlineInheritanceSystem cx.tree cx.props

/-- The match view a pass uses during its matching phase: the matcher reads
the stores as they stand after inline inheritance (the loop's link step never
writes the disabled store, so the view is fixed for the whole loop). -/
def passView (cx : Ctx) : MatchView := mkView cx (inlinePhase cx).props

/-- The shared-inheritance phase, run on the post-link stores with the redraw
list accumulated so far. -/
def sharedPhase (cx : Ctx) (st : LoopSt) : InheritOut :=
  sharedInheritanceSystem cx.tree
    { disabled := (inlinePhase cx).props.disabled, rest := st.lp }
    ((inlinePhase cx).redraw ++ st.redraw) (inlinePhase cx).text

/-- `style_system`: inline inheritance always runs; when the dirty set is
non-empty, the breadth-first matching loop runs over it, the dirty set is
cleared, shared inheritance runs, and the accumulated redraw entities are
delivered via `needs_redraw`.  When the dirty set is empty the function
returns right after inline inheritance — in particular the redraw entities
collected by inline inheritance are dropped, not delivered. -/
def styleSystem (cx : Ctx) : Option RunResult :=
  if cx.restyle.isEmpty then
    some
      { props := (inlinePhase cx).props
        restyle := cx.restyle
        delivered := []
        textUpdates := (inlinePhase cx).text
        phases := [Phase.inlineInherit]
        assigned := fun _ => none
        cachePushes := []
        cacheHits := []
        fullMatched := [] }
  else
    match runLoop cx (passView cx) (initLoopSt (inlinePhase cx).props.rest) cx.tree.bfs with
    | none => none
    | some st =>
      some
        { props := (sharedPhase cx st).props
          restyle := []
          delivered := (sharedPhase cx st).redraw
          textUpdates := (sharedPhase cx st).text
          phases := [Phase.inlineInherit, Phase.matching, Phase.sharedInherit]
          assigned := st.assigned
          cachePushes := st.cachePushes
          cacheHits := st.cacheHits
          fullMatched := st.fullMatched }

def sysPhases (cx : Ctx) : Option (List Phase) :=
  (styleSystem cx).map (fun r => r.phases)

def sysRestyle (cx : Ctx) : Option (List Entity) :=
  (styleSystem cx).map (fun r => r.restyle)

def sysDelivered (cx : Ctx) : Option (List Entity) :=
  (styleSystem cx).map (fun r => r.delivered)

def sysAssigned (cx : Ctx) (e : Entity) : Option (Option (List (Nat × Nat))) :=
  (styleSystem cx).map (fun r => r.assigned e)

def sysCachePushes (cx : Ctx) : Option (List Entity) :=
  (styleSystem cx).map (fun r => r.cachePushes)

def sysCacheHits (cx : Ctx) : Option (List Entity) :=
  (styleSystem cx).map (fun r => r.cacheHits)

def sysFullMatched (cx : Ctx) : Option (List Entity) :=
  (styleSystem cx).map (fun r => r.fullMatched)

/-! ### Cache-safety side conditions -/

/-- Two-way containment of class lists (equality of the class sets). -/
def listSetEqB (a b : List String) : Bool :=
  a.all (fun n => b.contains n) && b.all (fun n => a.contains n)

/-- A component whose match result is determined by the data
`has_same_selector` compares (element name, id, class set, pseudo-class
record): positional components and `:enabled`/`:disabled` (which read sibling
position resp. the disabled store) are excluded, and type/id names must be
non-empty so that a missing record and a recorded empty name cannot be
confused. -/
def compOK : SimpleComponent → Bool
  | .nth _ _ _ => false
  | .pseudo .enabled => false
  | .pseudo .disabled => false
  | .typeSel n => !(n == (""))
  | .idSel n => !(n == (""))
  | _ => true

/-- A selector whose result, for entities under the same layout parent,
depends only on the compared data: subject compound cache-determined and the
subject-side combinator not a sibling combinator (everything left of a
child/descendant combinator is evaluated at the shared ancestry). -/
def selSafe : Sel → Bool
  | .last c => c.all compOK
  | .cons c k _ => c.all compOK && !(k == Comb.next) && !(k == Comb.later)

def cacheSafeRules (rules : List (Nat × List Sel)) : Bool :=
  rules.all (fun p => p.2.all selSafe)

/-- Every dirty entity carries class and pseudo-class records (true of the
real engine, which seeds both stores on entity creation). -/
def recordsPresentB (cx : Ctx) : Bool :=
  cx.restyle.all (fun e => (cx.classes e).isSome && (cx.pseudoClasses e).isSome)

/-! ### The claims under test, stated as propositions -/

/-- Claim-level component identity: equal element kind and id (missing records
also differing from present ones only via the empty-string default), class
sets equal with record presence agreeing, pseudo-class patterns equal with
record presence agreeing. -/
def sameComponentsB (v : MatchView) (e1 e2 : Entity) : Bool :=
  ((v.element e1).getD ("") == (v.element e2).getD ("")) &&
  ((v.ids e1).getD ("") == (v.ids e2).getD ("")) &&
  (match v.classes e1, v.classes e2 with
   | some c1, some c2 => listSetEqB c1 c2
   | none, none => true
   | _, _ => false) &&
  (match v.pseudoClasses e1, v.pseudoClasses e2 with
   | some f1, some f2 => f1 == f2
   | none, none => true
   | _, _ => false)

/-- Claim C1 as stated: siblings under one layout parent with identical
element kind, id, class set and pseudo-class flags, neither first nor last
child, no positional selector among the candidate rules — then the pass
assigns both the same matched-rule list, and an assigned list agrees with full
matching. -/
def ClaimC1 (cx : Ctx) : Prop :=
  ∀ e1 e2 p a1 a2,
    cx.tree.parentOf e1 = some p → cx.tree.parentOf e2 = some p →
    cx.element e1 = cx.element e2 →
    cx.ids e1 = cx.ids e2 →
    listSetEqB ((cx.classes e1).getD []) ((cx.classes e2).getD []) = true →
    cx.pseudoClasses e1 = cx.pseudoClasses e2 →
    cx.tree.isFirstChild e1 = false → cx.tree.isLastChild e1 = false →
    cx.tree.isFirstChild e2 = false → cx.tree.isLastChild e2 = false →
    cx.rules.all (fun rp => rp.2.all (fun s => !(selHasPositionalAnywhere s))) = true →
    sysAssigned cx e1 = some a1 → sysAssigned cx e2 = some a2 →
    a1 = a2 ∧
      (∀ L, a1 = some L → computeMatchedRules (passView cx) e1 = some L) ∧
      (∀ L, a2 = some L → computeMatchedRules (passView cx) e2 = some L)

/-- Claim C2 as stated: whenever any compared component differs (including a
record present on one side and missing on the other), the identity check must
report the entities as different. -/
def ClaimC2 (v : MatchView) : Prop :=
  ∀ e1 e2, sameComponentsB v e1 e2 = false → has_same_selector v e1 e2 = false

/-- Claim C3 (mechanism half) as stated: a reused cache entry never carries a
rule containing a positional component anywhere in one of its selectors. -/
def ClaimC3 : Prop :=
  ∀ cx e hits asg,
    sysCacheHits cx = some hits → e ∈ hits → sysAssigned cx e = some asg →
    (asg.getD []).all (fun rp => !(ruleHasPositionalAnywhere cx.rules rp.1)) = true

/-- Claim C5 as stated: every processed entity — a cache hit included — gets a
cache entry pushed for it. -/
def ClaimC5 (cx : Ctx) : Prop :=
  ∀ e a pushes,
    sysAssigned cx e = some a → a ≠ none → sysCachePushes cx = some pushes → e ∈ pushes

/-- An unsupported pseudo-class component (`:lang()`, `:dir()`, custom). -/
def isUnsupportedComp : SimpleComponent → Bool
  | .pseudo (.lang _) => true
  | .pseudo (.dir _) => true
  | .pseudo (.custom _) => true
  | _ => false

/-- Does a selector contain an unsupported feature (`:lang()`, `:dir()`, a
custom pseudo-class) anywhere? -/
def selHasUnsupported : Sel → Bool
  | .last c => c.any isUnsupportedComp
  | .cons c _ rest => c.any isUnsupportedComp || selHasUnsupported rest

/-- Claim C6 as stated: evaluating a selector containing an unsupported
feature always panics (`none`), for every entity. -/
def ClaimC6 (v : MatchView) : Prop :=
  ∀ e s fuel, selHasUnsupported s = true → matchSel v fuel s e = none

/-! ### Concrete instances -/

/-- Root `0`, wrapper `1`, four siblings `2,3,4,5` under `1`. -/
def t1 : Tree :=
  { parentOf := fun e =>
      if e == 1 then some 0
      else if e == 2 || e == 3 || e == 4 || e == 5 then some 1
      else none
    childrenOf := fun e =>
      if e == 0 then [1] else if e == 1 then [2, 3, 4, 5] else []
    fuel := 5 }

/-- A disabled store marking exactly entity `3` as inline-disabled. -/
def propsDis3 : PropState :=
  { disabled :=
      { inlineVal := fun e => if e == 3 then some true else none
        inlineExplicit := fun e => e == 3
        sharedVal := fun _ => none
        sharedExplicit := fun _ => false }
    rest := LinkedProps.empty }

/-- Counterexample context for C1: four sibling entities of element kind `x`
with equal (empty) ids/class sets and equal pseudo-class patterns, but entity
`3` disabled and the others not, under the single rule `:disabled`. -/
def cxC1 : Ctx :=
  { tree := t1
    element := fun e => if 2 ≤ e && e ≤ 5 then some ("x") else none
    ids := fun _ => none
    classes := fun _ => none
    pseudoClasses := fun e => if 2 ≤ e && e ≤ 5 then some 0 else none
    rules := [(1, [Sel.last [SimpleComponent.pseudo PseudoClassSel.disabled]])]
    restyle := [2, 3, 4, 5]
    props := propsDis3
    linkModel := fun lp _ _ => (lp, false) }

/-- Witness context for the amended C1: the same four siblings, all with class
`item` and the cache-determined rule `.item`. -/
def cxC1w : Ctx :=
  { tree := t1
    element := fun e => if 2 ≤ e && e ≤ 5 then some ("x") else none
    ids := fun _ => none
    classes := fun e => if 2 ≤ e && e ≤ 5 then some [("item")] else none
    pseudoClasses := fun e => if 2 ≤ e && e ≤ 5 then some 0 else none
    rules := [(1, [Sel.last [SimpleComponent.classSel ("item")]])]
    restyle := [2, 3, 4, 5]
    props := PropState.empty
    linkModel := fun lp _ _ => (lp, false) }

/-- Counterexample view for C2: entity `1` has a class record (`a`), entity
`2` has none. -/
def vC2 : MatchView :=
  { tree := t1
    element := fun _ => none
    ids := fun _ => none
    classes := fun e => if e == 1 then some [("a")] else none
    pseudoClasses := fun _ => none
    disabledRes := fun _ => none
    rules := [] }

/-- Counterexample context for C3: the rule `:nth-child(1) + .item` carries a
positional component in its non-subject compound; entity `2` has class
`other`, entities `3,4,5` class `item`. -/
def cxC3a : Ctx :=
  { tree := t1
    element := fun _ => none
    ids := fun _ => none
    classes := fun e =>
      if e == 2 then some [("other")]
      else if e == 3 || e == 4 || e == 5 then some [("item")]
      else none
    pseudoClasses := fun e => if 2 ≤ e && e ≤ 5 then some 0 else none
    rules :=
      [(1,
        [Sel.cons [SimpleComponent.classSel ("item")] Comb.next
          (Sel.last [SimpleComponent.nth NthTy.child 0 1])])]
    restyle := [2, 3, 4, 5]
    props := PropState.empty
    linkModel := fun lp _ _ => (lp, false) }

/-- Context for C8: empty dirty set, inline-disabled parent `1`, child `2`
that inherits the change. -/
def cxC8 : Ctx :=
  { tree :=
      { parentOf := fun e => if e == 1 then some 0 else if e == 2 then some 1 else none
        childrenOf := fun e => if e == 0 then [1] else if e == 1 then [2] else []
        fuel := 4 }
    element := fun _ => none
    ids := fun _ => none
    classes := fun _ => none
    pseudoClasses := fun _ => none
    rules := []
    restyle := []
    props :=
      { disabled :=
          { inlineVal := fun e => if e == 1 then some true else none
            inlineExplicit := fun e => e == 1
            sharedVal := fun _ => none
            sharedExplicit := fun _ => false }
        rest := LinkedProps.empty }
    linkModel := fun lp _ _ => (lp, false) }

/-- View with two equal-specificity class rules for the C4 witness. -/
def vC4 : MatchView :=
  { tree := t1
    element := fun _ => none
    ids := fun _ => none
    classes := fun e => if e == 3 then some [("a"), ("b")] else none
    pseudoClasses := fun _ => none
    disabledRes := fun _ => none
    rules :=
      [(1, [Sel.last [SimpleComponent.classSel ("a")]]),
       (2, [Sel.last [SimpleComponent.classSel ("b")]])] }

/-- View whose entity `1` has a pseudo-class record, for the C6 witness. -/
def vC6w : MatchView :=
  { tree := t1
    element := fun _ => none
    ids := fun _ => none
    classes := fun _ => none
    pseudoClasses := fun e => if e == 1 then some 0 else none
    disabledRes := fun _ => none
    rules := [] }

/-! ### Entity removal (`Context::remove`) -/

/-- The entity-keyed side tables of `Context` touched by `remove`: each is
modelled by its key set (the list of entities holding an entry).  Modelled
from the spec where the table's own `remove` lives outside the extracted
sources (`tree.remove`, `cache.remove`, `style.remove`, `data.remove`): each
removes the entity's entry from that table.  `observers` models the per-lens
observer sets of the model stores; `captured` the captured entity. -/
structure AppCtx where
  tree : Tree
  treeTbl : List Entity
  styleTbl : List Entity
  cacheTbl : List Entity
  dataTbl : List Entity
  viewsTbl : List Entity
  observers : List (Nat × List Entity)
  captured : Option Entity
  restyleFlag : Bool
  relayoutFlag : Bool
  redrawFlag : Bool

/-- `entity.branch_iter(&self.tree)`: the entity and all its descendants. -/
def branchList (t : Tree) (e : Entity) : List Entity := t.dfsAux t.fuel e

/-- The body of the `for entity in delete_list.iter().rev()` loop: drop the
entity from every lens observer set (pruning empty lenses), from every side
table, and release capture if it held it. -/
def removeOne (c : AppCtx) (d : Entity) : AppCtx :=
  { c with
    observers :=
      ((c.observers.map (fun p => (p.1, p.2.filter (fun x => !(x == d))))).filter
        (fun p => !p.2.isEmpty))
    treeTbl := c.treeTbl.filter (fun x => !(x == d))
    cacheTbl := c.cacheTbl.filter (fun x => !(x == d))
    styleTbl := c.styleTbl.filter (fun x => !(x == d))
    dataTbl := c.dataTbl.filter (fun x => !(x == d))
    viewsTbl := c.viewsTbl.filter (fun x => !(x == d))
    captured := if c.captured == some d then none else c.captured }

/-- `Context::remove`: collect the subtree, raise the restyle/relayout/redraw
flags when it is non-empty, then remove every subtree entity (leaves first)
from every side table. -/
def removeEntity (c : AppCtx) (e : Entity) : AppCtx :=
  let deleteList := branchList c.tree e
  let c1 :=
    if deleteList.isEmpty then c
    else { c with restyleFlag := true, relayoutFlag := true, redrawFlag := true }
  deleteList.reverse.foldl removeOne c1

/-! ### Congruence of matching under the compared components

For two entities under the same layout parent that agree on element name, id,
class membership and pseudo-class record, matching a cache-determined selector
gives the same result: everything left of the subject-side child/descendant
combinator is evaluated at the shared ancestry. -/

theorem matchComponent_congr (v : MatchView) (e1 e2 : Entity)
    (hel : (v.element e1).getD ("") = (v.element e2).getD (""))
    (hid : (v.ids e1).getD ("") = (v.ids e2).getD (""))
    (hcl : ∀ n, v.hasClass e1 n = v.hasClass e2 n)
    (hpc : v.pseudoClasses e1 = v.pseudoClasses e2)
    (c : SimpleComponent) (hc : compOK c = true) :
    v.matchComponent e1 c = v.matchComponent e2 c := by
  cases c with
  | universal => rfl
  | typeSel n =>
    have hn : ¬(n = ("")) := by
      intro h
      simp [compOK, h] at hc
    simp only [MatchView.matchComponent]
    congr 1
    unfold MatchView.hasLocalName
    cases h1 : v.element e1 with
    | none =>
      cases h2 : v.element e2 with
      | none => rfl
      | some b =>
        rw [h1, h2] at hel
        simp at hel
        subst hel
        simp [beq_eq_false_iff_ne, Ne, hn]
        intro h
        exact hn h.symm
    | some a =>
      cases h2 : v.element e2 with
      | none =>
        rw [h1, h2] at hel
        simp at hel
        subst hel
        simp [beq_eq_false_iff_ne, Ne]
        intro h
        exact hn h.symm
      | some b =>
        rw [h1, h2] at hel
        simp at hel
        rw [hel]
  | idSel n =>
    have hn : ¬(n = ("")) := by
      intro h
      simp [compOK, h] at hc
    simp only [MatchView.matchComponent]
    congr 1
    unfold MatchView.hasId
    cases h1 : v.ids e1 with
    | none =>
      cases h2 : v.ids e2 with
      | none => rfl
      | some b =>
        rw [h1, h2] at hid
        simp at hid
        subst hid
        simp [beq_eq_false_iff_ne, Ne]
        intro h
        exact hn h.symm
    | some a =>
      cases h2 : v.ids e2 with
      | none =>
        rw [h1, h2] at hid
        simp at hid
        subst hid
        simp [beq_eq_false_iff_ne, Ne]
        intro h
        exact hn h.symm
      | some b =>
        rw [h1, h2] at hid
        simp at hid
        rw [hid]
  | classSel n =>
    simp only [MatchView.matchComponent, hcl n]
  | nth ty a b => simp [compOK] at hc
  | pseudo pc =>
    cases pc with
    | state mask =>
      simp only [MatchView.matchComponent, MatchView.matchNonTs, hpc]
    | enabled => simp [compOK] at hc
    | disabled => simp [compOK] at hc
    | lang s =>
      simp only [MatchView.matchComponent, MatchView.matchNonTs, hpc]
    | dir s =>
      simp only [MatchView.matchComponent, MatchView.matchNonTs, hpc]
    | custom s =>
      simp only [MatchView.matchComponent, MatchView.matchNonTs, hpc]

theorem matchCompound_congr (v : MatchView) (e1 e2 : Entity)
    (hel : (v.element e1).getD ("") = (v.element e2).getD (""))
    (hid : (v.ids e1).getD ("") = (v.ids e2).getD (""))
    (hcl : ∀ n, v.hasClass e1 n = v.hasClass e2 n)
    (hpc : v.pseudoClasses e1 = v.pseudoClasses e2)
    (c : List SimpleComponent) (hc : c.all compOK = true) :
    v.matchCompound e1 c = v.matchCompound e2 c := by
  induction c with
  | nil => rfl
  | cons x xs ih =>
    simp only [List.all_cons, Bool.and_eq_true] at hc
    simp only [MatchView.matchCompound,
      matchComponent_congr v e1 e2 hel hid hcl hpc x hc.1]
    cases v.matchComponent e2 x with
    | none => rfl
    | some bv =>
      cases bv with
      | false => rfl
      | true => exact ih hc.2

theorem matchAnc_congr (v : MatchView) (e1 e2 : Entity)
    (hpar : v.tree.parentOf e1 = v.tree.parentOf e2)
    (fuel : Nat) (rest : Sel) :
    matchAnc v fuel rest e1 = matchAnc v fuel rest e2 := by
  cases fuel with
  | zero =>
    unfold matchAnc
    rfl
  | succ n =>
    unfold matchAnc
    rw [hpar]

theorem matchSel_congr (v : MatchView) (e1 e2 : Entity)
    (hpar : v.tree.parentOf e1 = v.tree.parentOf e2)
    (hel : (v.element e1).getD ("") = (v.element e2).getD (""))
    (hid : (v.ids e1).getD ("") = (v.ids e2).getD (""))
    (hcl : ∀ n, v.hasClass e1 n = v.hasClass e2 n)
    (hpc : v.pseudoClasses e1 = v.pseudoClasses e2)
    (fuel : Nat) (s : Sel) (hs : selSafe s = true) :
    matchSel v fuel s e1 = matchSel v fuel s e2 := by
  cases fuel with
  | zero => rfl
  | succ n =>
    cases s with
    | last c =>
      exact matchCompound_congr v e1 e2 hel hid hcl hpc c (by simpa [selSafe] using hs)
    | cons c k rest =>
      simp only [selSafe, Bool.and_eq_true] at hs
      obtain ⟨⟨hcall, hknext⟩, hklater⟩ := hs
      have hcc := matchCompound_congr v e1 e2 hel hid hcl hpc c hcall
      cases k with
      | child =>
        show (match v.matchCompound e1 c with
          | none => none
          | some false => some false
          | some true =>
            match v.tree.parentOf e1 with
            | none => some false
            | some p => matchSel v n rest p) =
          (match v.matchCompound e2 c with
          | none => none
          | some false => some false
          | some true =>
            match v.tree.parentOf e2 with
            | none => some false
            | some p => matchSel v n rest p)
        rw [hcc, hpar]
      | descendant =>
        show (match v.matchCompound e1 c with
          | none => none
          | some false => some false
          | some true => matchAnc v n rest e1) =
          (match v.matchCompound e2 c with
          | none => none
          | some false => some false
          | some true => matchAnc v n rest e2)
        rw [hcc, matchAnc_congr v e1 e2 hpar n rest]
      | next => simp at hknext
      | later => simp at hklater


theorem findMatchingSel_congr (v : MatchView) (e1 e2 : Entity)
    (hpar : v.tree.parentOf e1 = v.tree.parentOf e2)
    (hel : (v.element e1).getD ("") = (v.element e2).getD (""))
    (hid : (v.ids e1).getD ("") = (v.ids e2).getD (""))
    (hcl : ∀ n, v.hasClass e1 n = v.hasClass e2 n)
    (hpc : v.pseudoClasses e1 = v.pseudoClasses e2)
    (sels : List Sel) (hs : sels.all selSafe = true) :
    findMatchingSel v e1 sels = findMatchingSel v e2 sels := by
  induction sels with
  | nil => rfl
  | cons s ss ih =>
    simp only [List.all_cons, Bool.and_eq_true] at hs
    simp only [findMatchingSel,
      matchSel_congr v e1 e2 hpar hel hid hcl hpc v.tree.fuel s hs.1]
    cases matchSel v v.tree.fuel s e2 with
    | none => rfl
    | some bv =>
      cases bv with
      | true => rfl
      | false => exact ih hs.2

theorem computeBaseAux_congr (v : MatchView) (e1 e2 : Entity)
    (hpar : v.tree.parentOf e1 = v.tree.parentOf e2)
    (hel : (v.element e1).getD ("") = (v.element e2).getD (""))
    (hid : (v.ids e1).getD ("") = (v.ids e2).getD (""))
    (hcl : ∀ n, v.hasClass e1 n = v.hasClass e2 n)
    (hpc : v.pseudoClasses e1 = v.pseudoClasses e2)
    (rules : List (Nat × List Sel)) (hs : cacheSafeRules rules = true) :
    computeBaseAux v e1 rules = computeBaseAux v e2 rules := by
  induction rules with
  | nil => rfl
  | cons rp rest ih =>
    simp only [cacheSafeRules, List.all_cons, Bool.and_eq_true] at hs
    have ih2 := ih (by simpa [cacheSafeRules] using hs.2)
    cases rp with
    | mk r sels =>
      simp only [computeBaseAux,
        findMatchingSel_congr v e1 e2 hpar hel hid hcl hpc sels hs.1, ih2]

theorem computeMatchedRules_congr (v : MatchView) (e1 e2 : Entity)
    (hpar : v.tree.parentOf e1 = v.tree.parentOf e2)
    (hel : (v.element e1).getD ("") = (v.element e2).getD (""))
    (hid : (v.ids e1).getD ("") = (v.ids e2).getD (""))
    (hcl : ∀ n, v.hasClass e1 n = v.hasClass e2 n)
    (hpc : v.pseudoClasses e1 = v.pseudoClasses e2)
    (hs : cacheSafeRules v.rules = true) :
    computeMatchedRules v e1 = computeMatchedRules v e2 := by
  unfold computeMatchedRules
  rw [computeBaseAux_congr v e1 e2 hpar hel hid hcl hpc v.rules hs]

/-! ### What a positive `has_same_selector` guarantees -/

theorem listSetEqB_contains {c1 c2 : List String} (h : listSetEqB c1 c2 = true) (n : String) :
    c1.contains n = c2.contains n := by
  simp only [listSetEqB, Bool.and_eq_true, List.all_eq_true] at h
  obtain ⟨h1, h2⟩ := h
  cases hc : c1.contains n with
  | true =>
    have hn : n ∈ c1 := by simpa using hc
    exact (h1 n hn).symm
  | false =>
    cases hc2 : c2.contains n with
    | false => rfl
    | true =>
      have hn : n ∈ c2 := by simpa using hc2
      rw [h2 n hn] at hc
      cases hc

theorem hss_spec (v : MatchView) (a b : Entity) (h : has_same_selector v a b = true) :
    (v.element a).getD ("") = (v.element b).getD ("") ∧
    (v.ids a).getD ("") = (v.ids b).getD ("") ∧
    (∀ c1 c2, v.classes a = some c1 → v.classes b = some c2 → listSetEqB c1 c2 = true) ∧
    (∀ f1 f2, v.pseudoClasses a = some f1 → v.pseudoClasses b = some f2 → f1 = f2) := by
  unfold has_same_selector at h
  simp only [Bool.and_eq_true] at h
  obtain ⟨⟨⟨hel, hid⟩, hcls⟩, hpc⟩ := h
  refine ⟨by simpa using hel, by simpa using hid, ?_, ?_⟩
  · intro c1 c2 hc1 hc2
    rw [hc1, hc2] at hcls
    simp only [Bool.and_eq_true] at hcls
    simp only [listSetEqB, Bool.and_eq_true]
    exact ⟨hcls.2, hcls.1⟩
  · intro f1 f2 hf1 hf2
    rw [hf1, hf2] at hpc
    simpa using hpc

/-- From a positive identity check plus present class and pseudo-class records
on both sides, all congruence hypotheses of the matcher follow. -/
theorem hss_congr_hyps (v : MatchView) (a b : Entity)
    (hss : has_same_selector v a b = true)
    (hca : (v.classes a).isSome = true) (hcb : (v.classes b).isSome = true)
    (hpa : (v.pseudoClasses a).isSome = true) (hpb : (v.pseudoClasses b).isSome = true) :
    (v.element a).getD ("") = (v.element b).getD ("") ∧
    (v.ids a).getD ("") = (v.ids b).getD ("") ∧
    (∀ n, v.hasClass a n = v.hasClass b n) ∧
    v.pseudoClasses a = v.pseudoClasses b := by
  obtain ⟨hel, hid, hcls, hpc⟩ := hss_spec v a b hss
  obtain ⟨c1, hc1⟩ := Option.isSome_iff_exists.mp hca
  obtain ⟨c2, hc2⟩ := Option.isSome_iff_exists.mp hcb
  obtain ⟨f1, hf1⟩ := Option.isSome_iff_exists.mp hpa
  obtain ⟨f2, hf2⟩ := Option.isSome_iff_exists.mp hpb
  refine ⟨hel, hid, ?_, ?_⟩
  · intro n
    unfold MatchView.hasClass
    rw [hc1, hc2]
    exact listSetEqB_contains (hcls c1 c2 hc1 hc2) n
  · rw [hf1, hf2, hpc f1 f2 hf1 hf2]

/-- A successful cache search returns the rules of some compatible entry whose
rules are free of subject-compound positional components. -/
theorem findCacheMatch_spec (v : MatchView) (e : Entity) (cache : List CacheEntry)
    (rules : List (Nat × Nat)) (h : findCacheMatch v e cache = some rules) :
    ∃ entry ∈ cache, has_same_selector v entry.entity e = true ∧ rules = entry.rules ∧
      entry.rules.all (fun rp => !(ruleHasPositional v.rules rp.1)) = true := by
  induction cache with
  | nil => cases h
  | cons entry rest ih =>
    unfold findCacheMatch at h
    split at h
    · next hss =>
      split at h
      · next hpos =>
        obtain ⟨x, hx, hrest⟩ := ih h
        exact ⟨x, List.mem_cons_of_mem _ hx, hrest⟩
      · next hpos =>
        refine ⟨entry, List.mem_cons_self _ _, hss, (Option.some_inj.mp h).symm, ?_⟩
        simp only [List.all_eq_true]
        intro rp hrp
        show (!(ruleHasPositional v.rules rp.1)) = true
        cases hx : ruleHasPositional v.rules rp.1 with
        | false => rfl
        | true =>
          exfalso
          have hany : entry.rules.any (fun rp => ruleHasPositional v.rules rp.1) = true :=
            List.any_eq_true.mpr ⟨rp, hrp, hx⟩
          simp [hany] at hpos
    · next hss =>
      obtain ⟨x, hx, hrest⟩ := ih h
      exact ⟨x, List.mem_cons_of_mem _ hx, hrest⟩


/-! ### Field-preservation facts of the loop bodies -/

theorem applyLink_assigned (cx : Ctx) (st : LoopSt) (e : Entity) (rules : List (Nat × Nat)) :
    (applyLink cx st e rules).assigned = fun x => if x = e then some rules else st.assigned x := by
  unfold applyLink
  split <;> rfl

theorem applyLink_parentVar (cx : Ctx) (st : LoopSt) (e : Entity) (rules : List (Nat × Nat)) :
    (applyLink cx st e rules).parentVar = st.parentVar := by
  unfold applyLink
  split <;> rfl

theorem applyLink_cache (cx : Ctx) (st : LoopSt) (e : Entity) (rules : List (Nat × Nat)) :
    (applyLink cx st e rules).cache = st.cache := by
  unfold applyLink
  split <;> rfl

theorem applyLink_cachePushes (cx : Ctx) (st : LoopSt) (e : Entity) (rules : List (Nat × Nat)) :
    (applyLink cx st e rules).cachePushes = st.cachePushes := by
  unfold applyLink
  split <;> rfl

theorem applyLink_cacheHits (cx : Ctx) (st : LoopSt) (e : Entity) (rules : List (Nat × Nat)) :
    (applyLink cx st e rules).cacheHits = st.cacheHits := by
  unfold applyLink
  split <;> rfl

theorem applyLink_fullMatched (cx : Ctx) (st : LoopSt) (e : Entity) (rules : List (Nat × Nat)) :
    (applyLink cx st e rules).fullMatched = st.fullMatched := by
  unfold applyLink
  split <;> rfl

/-! ### Ghost bookkeeping invariant: cache entries are pushed exactly for
fully matched entities, and an entity has an assigned list exactly when it was
fully matched or served from the cache -/

def GhostOK (st : LoopSt) : Prop :=
  st.cachePushes = st.fullMatched ∧
  ∀ x, (st.assigned x).isSome = true ↔ (x ∈ st.fullMatched ∨ x ∈ st.cacheHits)

theorem computeAndPush_ghost (cx : Ctx) (v : MatchView) (st st1 : LoopSt) (e : Entity)
    (h : computeAndPush cx v st e = some st1) (hg : GhostOK st) : GhostOK st1 := by
  unfold computeAndPush at h
  cases hr : computeMatchedRules v e with
  | none => rw [hr] at h; cases h
  | some rules =>
    rw [hr] at h
    obtain rfl := Option.some_inj.mp h
    constructor
    · rw [applyLink_cachePushes, applyLink_fullMatched]
      simp only [hg.1]
    · intro x
      rw [applyLink_assigned, applyLink_fullMatched, applyLink_cacheHits]
      by_cases hx : x = e
      · subst hx
        simp
      · simp only [if_neg hx]
        rw [(hg.2 x)]
        simp [List.mem_append, hx]

theorem matchStep_ghost (cx : Ctx) (v : MatchView) (st st1 : LoopSt) (e : Entity)
    (h : matchStep cx v st e = some st1) (hg : GhostOK st) : GhostOK st1 := by
  unfold matchStep at h
  split at h
  · obtain rfl := Option.some_inj.mp h
    exact hg
  · split at h
    · split at h
      · obtain rfl := Option.some_inj.mp h
        constructor
        · rw [applyLink_cachePushes, applyLink_fullMatched]
          simp only [hg.1]
        · intro x
          rw [applyLink_assigned, applyLink_fullMatched, applyLink_cacheHits]
          by_cases hx : x = e
          · subst hx
            simp
          · simp only [if_neg hx]
            rw [(hg.2 x)]
            simp [List.mem_append, hx]
      · exact computeAndPush_ghost cx v _ st1 e h hg
    · exact computeAndPush_ghost cx v _ st1 e h hg

theorem runLoop_ghost (cx : Ctx) (v : MatchView) (l : List Entity) (st st1 : LoopSt)
    (h : runLoop cx v st l = some st1) (hg : GhostOK st) : GhostOK st1 := by
  induction l generalizing st with
  | nil =>
    obtain rfl := Option.some_inj.mp h
    exact hg
  | cons e rest ih =>
    unfold runLoop at h
    cases hm : matchStep cx v st e with
    | none => rw [hm] at h; cases h
    | some st2 =>
      rw [hm] at h
      exact ih st2 h (matchStep_ghost cx v st st2 e hm hg)

theorem styleSystem_ghost (cx : Ctx) (res : RunResult) (h : styleSystem cx = some res) :
    res.cachePushes = res.fullMatched ∧
    ∀ x, (res.assigned x).isSome = true ↔ (x ∈ res.fullMatched ∨ x ∈ res.cacheHits) := by
  unfold styleSystem at h
  split at h
  · obtain rfl := Option.some_inj.mp h
    constructor
    · rfl
    · intro x
      simp
  · split at h
    · cases h
    · next st hrl =>
      obtain rfl := Option.some_inj.mp h
      have hinit : GhostOK (initLoopSt (inlinePhase cx).props.rest) := by
        constructor
        · rfl
        · intro x
          simp [initLoopSt]
      exact runLoop_ghost cx _ _ _ st hrl hinit


/-! ### Cache soundness: under cache-determined rules with records present,
every assigned matched-rule list equals the full-match result -/

def SoundOK (cx : Ctx) (v : MatchView) (st : LoopSt) : Prop :=
  (∀ entry ∈ st.cache,
    cx.tree.parentOf entry.entity = st.parentVar ∧
    computeMatchedRules v entry.entity = some entry.rules ∧
    entry.entity ∈ cx.restyle) ∧
  (∀ x L, st.assigned x = some L → computeMatchedRules v x = some L)

theorem computeAndPush_sound (cx : Ctx) (v : MatchView) (st st1 : LoopSt) (e : Entity)
    (h : computeAndPush cx v st e = some st1)
    (hs : SoundOK cx v st)
    (hdirt : e ∈ cx.restyle)
    (hpar : cx.tree.parentOf e = st.parentVar) :
    SoundOK cx v st1 := by
  unfold computeAndPush at h
  cases hr : computeMatchedRules v e with
  | none => rw [hr] at h; cases h
  | some rules =>
    rw [hr] at h
    obtain rfl := Option.some_inj.mp h
    constructor
    · intro entry hentry
      rw [applyLink_cache] at hentry
      rw [applyLink_parentVar]
      rcases List.mem_append.mp hentry with hmem | hmem
      · exact hs.1 entry hmem
      · have hq : entry = { entity := e, rules := rules } := by simpa using hmem
        subst hq
        exact ⟨hpar, hr, hdirt⟩
    · intro x L hx
      simp only [applyLink_assigned] at hx
      by_cases hxe : x = e
      · subst hxe
        rw [if_pos rfl] at hx
        obtain rfl := Option.some_inj.mp hx
        exact hr
      · rw [if_neg hxe] at hx
        exact hs.2 x L hx

theorem matchStep_sound (cx : Ctx) (ps : PropState) (st st1 : LoopSt) (e : Entity)
    (hsafe : cacheSafeRules cx.rules = true)
    (hrec : recordsPresentB cx = true)
    (h : matchStep cx (mkView cx ps) st e = some st1)
    (hs : SoundOK cx (mkView cx ps) st) :
    SoundOK cx (mkView cx ps) st1 := by
  unfold matchStep at h
  split at h
  · obtain rfl := Option.some_inj.mp h
    exact hs
  · next hdirtB =>
    have hdirt : e ∈ cx.restyle := by
      simp at hdirtB
      simpa using hdirtB
    have hrecAll : ∀ x ∈ cx.restyle,
        (cx.classes x).isSome = true ∧ (cx.pseudoClasses x).isSome = true := by
      simpa [recordsPresentB] using hrec
    split at h
    · next hgroup =>
      simp only [Bool.and_eq_true] at hgroup
      have hpar : cx.tree.parentOf e = st.parentVar := beq_iff_eq.mp hgroup.1.1
      split at h
      · next rules hfc =>
        obtain rfl := Option.some_inj.mp h
        obtain ⟨entry, hmem, hss, hruleq, hnopos⟩ :=
          findCacheMatch_spec (mkView cx ps) e st.cache rules hfc
        obtain ⟨hpe, hce, hz⟩ := hs.1 entry hmem
        have hre := hrecAll entry.entity hz
        have hree := hrecAll e hdirt
        obtain ⟨hel, hid, hcl, hpc⟩ :=
          hss_congr_hyps (mkView cx ps) entry.entity e hss hre.1 hree.1 hre.2 hree.2
        have hparEq : (mkView cx ps).tree.parentOf entry.entity =
            (mkView cx ps).tree.parentOf e := by
          show cx.tree.parentOf entry.entity = cx.tree.parentOf e
          rw [hpe, hpar]
        have hfull : computeMatchedRules (mkView cx ps) e = some entry.rules := by
          rw [← (computeMatchedRules_congr (mkView cx ps) entry.entity e hparEq hel hid hcl hpc
            hsafe)]
          exact hce
        constructor
        · intro en hen
          rw [applyLink_cache] at hen
          rw [applyLink_parentVar]
          exact hs.1 en hen
        · intro x L hx
          simp only [applyLink_assigned] at hx
          by_cases hxe : x = e
          · subst hxe
            rw [if_pos rfl] at hx
            obtain rfl := Option.some_inj.mp hx
            rw [hfull, hruleq]
          · rw [if_neg hxe] at hx
            exact hs.2 x L hx
      · exact computeAndPush_sound cx _ st st1 e h hs hdirt hpar
    · apply computeAndPush_sound cx _ _ st1 e h ?_ hdirt rfl
      constructor
      · intro entry hentry
        simp at hentry
      · exact hs.2

theorem runLoop_sound (cx : Ctx) (ps : PropState) (l : List Entity) (st st1 : LoopSt)
    (hsafe : cacheSafeRules cx.rules = true)
    (hrec : recordsPresentB cx = true)
    (h : runLoop cx (mkView cx ps) st l = some st1)
    (hs : SoundOK cx (mkView cx ps) st) :
    SoundOK cx (mkView cx ps) st1 := by
  induction l generalizing st with
  | nil =>
    obtain rfl := Option.some_inj.mp h
    exact hs
  | cons e rest ih =>
    unfold runLoop at h
    cases hm : matchStep cx (mkView cx ps) st e with
    | none => rw [hm] at h; cases h
    | some st2 =>
      rw [hm] at h
      exact ih st2 h (matchStep_sound cx ps st st2 e hsafe hrec hm hs)

theorem styleSystem_sound (cx : Ctx) (res : RunResult)
    (h : styleSystem cx = some res)
    (hsafe : cacheSafeRules cx.rules = true)
    (hrec : recordsPresentB cx = true) :
    ∀ x L, res.assigned x = some L → computeMatchedRules (passView cx) x = some L := by
  unfold styleSystem at h
  split at h
  · obtain rfl := Option.some_inj.mp h
    intro x L hx
    cases hx
  · split at h
    · cases h
    · next st hrl =>
      obtain rfl := Option.some_inj.mp h
      intro x L hx
      have hinit : SoundOK cx (mkView cx (inlinePhase cx).props)
          (initLoopSt (inlinePhase cx).props.rest) := by
        constructor
        · intro entry hentry
          simp [initLoopSt] at hentry
        · intro y L2 hy
          cases hy
      exact (runLoop_sound cx (inlinePhase cx).props cx.tree.bfs _ st hsafe hrec hrl hinit).2 x L hx

/-! ### Every traversed dirty entity receives an assigned list -/

theorem matchStep_assigned_mono (cx : Ctx) (v : MatchView) (st st1 : LoopSt) (e x : Entity)
    (h : matchStep cx v st e = some st1)
    (hx : (st.assigned x).isSome = true) : (st1.assigned x).isSome = true := by
  unfold matchStep at h
  split at h
  · obtain rfl := Option.some_inj.mp h
    exact hx
  · split at h
    · split at h
      · next rules hfc =>
        obtain rfl := Option.some_inj.mp h
        simp only [applyLink_assigned]
        by_cases hxe : x = e
        · subst hxe
          simp
        · simpa [if_neg hxe] using hx
      · unfold computeAndPush at h
        cases hr : computeMatchedRules v e with
        | none => rw [hr] at h; cases h
        | some rules =>
          rw [hr] at h
          obtain rfl := Option.some_inj.mp h
          simp only [applyLink_assigned]
          by_cases hxe : x = e
          · subst hxe
            simp
          · simpa [if_neg hxe] using hx
    · unfold computeAndPush at h
      cases hr : computeMatchedRules v e with
      | none => rw [hr] at h; cases h
      | some rules =>
        rw [hr] at h
        obtain rfl := Option.some_inj.mp h
        simp only [applyLink_assigned]
        by_cases hxe : x = e
        · subst hxe
          simp
        · simpa [if_neg hxe] using hx

theorem matchStep_assigned_self (cx : Ctx) (v : MatchView) (st st1 : LoopSt) (e : Entity)
    (h : matchStep cx v st e = some st1)
    (hd : e ∈ cx.restyle) : (st1.assigned e).isSome = true := by
  unfold matchStep at h
  split at h
  · next hskip =>
    exfalso
    simp at hskip
    exact hskip (by simpa using hd)
  · split at h
    · split at h
      · next rules hfc =>
        obtain rfl := Option.some_inj.mp h
        simp [applyLink_assigned]
      · unfold computeAndPush at h
        cases hr : computeMatchedRules v e with
        | none => rw [hr] at h; cases h
        | some rules =>
          rw [hr] at h
          obtain rfl := Option.some_inj.mp h
          simp [applyLink_assigned]
    · unfold computeAndPush at h
      cases hr : computeMatchedRules v e with
      | none => rw [hr] at h; cases h
      | some rules =>
        rw [hr] at h
        obtain rfl := Option.some_inj.mp h
        simp [applyLink_assigned]

theorem runLoop_assigned_mono (cx : Ctx) (v : MatchView) (l : List Entity) (st st1 : LoopSt)
    (x : Entity) (h : runLoop cx v st l = some st1)
    (hx : (st.assigned x).isSome = true) : (st1.assigned x).isSome = true := by
  induction l generalizing st with
  | nil =>
    obtain rfl := Option.some_inj.mp h
    exact hx
  | cons y ys ih =>
    unfold runLoop at h
    cases hm : matchStep cx v st y with
    | none => rw [hm] at h; cases h
    | some st2 =>
      rw [hm] at h
      exact ih st2 h (matchStep_assigned_mono cx v st st2 y x hm hx)

theorem runLoop_assigned (cx : Ctx) (v : MatchView) (l : List Entity) (st st1 : LoopSt)
    (h : runLoop cx v st l = some st1) :
    ∀ e ∈ l, e ∈ cx.restyle → (st1.assigned e).isSome = true := by
  induction l generalizing st with
  | nil =>
    intro e he
    cases he
  | cons x rest ih =>
    unfold runLoop at h
    cases hm : matchStep cx v st x with
    | none => rw [hm] at h; cases h
    | some st2 =>
      rw [hm] at h
      intro e he hd
      rcases List.mem_cons.mp he with rfl | he2
      · exact runLoop_assigned_mono cx v rest st2 st1 e h
          (matchStep_assigned_self cx v st st2 e hm hd)
      · exact ih st2 h e he2 hd

theorem styleSystem_assigned_some (cx : Ctx) (res : RunResult) (e : Entity)
    (h : styleSystem cx = some res)
    (hd : e ∈ cx.restyle) (ht : e ∈ cx.tree.bfs) :
    (res.assigned e).isSome = true := by
  unfold styleSystem at h
  split at h
  · next hempty =>
    exfalso
    rw [List.isEmpty_iff] at hempty
    rw [hempty] at hd
    cases hd
  · split at h
    · cases h
    · next st hrl =>
      obtain rfl := Option.some_inj.mp h
      exact runLoop_assigned cx _ cx.tree.bfs _ st hrl e ht hd


/-! ### Order of the matched-rule list: specificity descending, ties by
declaration order with the later-declared rule first -/

theorem insertAsc_mem {α : Type} (key : α → Nat) (x a : α) (l : List α) :
    a ∈ insertAsc key x l ↔ a = x ∨ a ∈ l := by
  induction l with
  | nil => simp [insertAsc]
  | cons y ys ih =>
    unfold insertAsc
    split
    · rw [List.mem_cons, ih, List.mem_cons]
      tauto
    · simp only [List.mem_cons]

theorem isortAsc_mem {α : Type} (key : α → Nat) (a : α) (l : List α) :
    a ∈ isortAsc key l ↔ a ∈ l := by
  induction l with
  | nil => simp [isortAsc]
  | cons x xs ih => simp [isortAsc, insertAsc_mem, ih]

theorem insertAsc_pairwise {α : Type} (key : α → Nat) (R : α → α → Prop) (x : α) (l : List α)
    (hl : l.Pairwise (fun a b => key a < key b ∨ (key a = key b ∧ R a b)))
    (hx : ∀ y ∈ l, R x y) :
    (insertAsc key x l).Pairwise (fun a b => key a < key b ∨ (key a = key b ∧ R a b)) := by
  induction l with
  | nil => simp [insertAsc]
  | cons y ys ih =>
    unfold insertAsc
    split
    · next hlt =>
      rw [List.pairwise_cons] at hl
      rw [List.pairwise_cons]
      constructor
      · intro b hb
        rcases (insertAsc_mem key x b ys).mp hb with rfl | hb2
        · left
          exact hlt
        · exact hl.1 b hb2
      · exact ih hl.2 (fun y2 hy2 => hx y2 (List.mem_cons_of_mem _ hy2))
    · next hge =>
      have hxy : key x ≤ key y := Nat.le_of_not_lt hge
      rw [List.pairwise_cons]
      constructor
      · intro b hb
        have hxb : R x b := hx b hb
        rcases List.mem_cons.mp hb with rfl | hb2
        · rcases Nat.lt_or_ge (key x) (key b) with h1 | h2
          · left
            exact h1
          · right
            exact ⟨Nat.le_antisymm hxy h2, hxb⟩
        · have hyb : key y ≤ key b := by
            rcases (List.pairwise_cons.mp hl).1 b hb2 with h1 | h1
            · exact Nat.le_of_lt h1
            · exact Nat.le_of_eq h1.1
          rcases Nat.lt_or_ge (key x) (key b) with h1 | h2
          · left
            exact h1
          · right
            exact ⟨Nat.le_antisymm (Nat.le_trans hxy hyb) h2, hxb⟩
      · exact hl

theorem isortAsc_pairwise {α : Type} (key : α → Nat) (R : α → α → Prop) (l : List α)
    (hl : l.Pairwise R) :
    (isortAsc key l).Pairwise (fun a b => key a < key b ∨ (key a = key b ∧ R a b)) := by
  induction l with
  | nil => simp [isortAsc]
  | cons x xs ih =>
    rw [List.pairwise_cons] at hl
    unfold isortAsc
    apply insertAsc_pairwise key R x _ (ih hl.2)
    intro y hy
    exact hl.1 y ((isortAsc_mem key y xs).mp hy)

theorem computeBaseAux_sublist (v : MatchView) (e : Entity) (rules : List (Nat × List Sel))
    (b : List (Nat × Nat)) (h : computeBaseAux v e rules = some b) :
    (b.map Prod.fst).Sublist (rules.map Prod.fst) := by
  induction rules generalizing b with
  | nil =>
    obtain rfl := (Option.some_inj.mp h).symm
    simp
  | cons rp rest ih =>
    cases rp with
    | mk r sels =>
      unfold computeBaseAux at h
      cases hf : findMatchingSel v e sels with
      | none => rw [hf] at h; cases h
      | some o =>
        rw [hf] at h
        cases o with
        | none =>
          exact List.Sublist.cons _ (ih b h)
        | some sp =>
          cases hr : computeBaseAux v e rest with
          | none => rw [hr] at h; cases h
          | some acc =>
            rw [hr] at h
            have h2 : ((r, sp) :: acc : List (Nat × Nat)) = b := Option.some_inj.mp h
            obtain rfl := h2
            simpa using List.Sublist.cons₂ r (ih acc hr)

theorem nodup_pairwise_idxOf (l : List Nat) (hl : l.Nodup) :
    l.Pairwise (fun a b => l.indexOf a < l.indexOf b) := by
  induction l with
  | nil => exact List.Pairwise.nil
  | cons x xs ih =>
    rw [List.nodup_cons] at hl
    rw [List.pairwise_cons]
    constructor
    · intro b hb
      have hbx : b ≠ x := fun hq => hl.1 (hq ▸ hb)
      rw [List.indexOf_cons_self, List.indexOf_cons_ne _ (Ne.symm hbx)]
      exact Nat.succ_pos _
    · apply List.Pairwise.imp_of_mem ?_ (ih hl.2)
      intro a b ha hb hab
      have hax : a ≠ x := fun hq => hl.1 (hq ▸ ha)
      have hbx : b ≠ x := fun hq => hl.1 (hq ▸ hb)
      rw [List.indexOf_cons_ne _ (Ne.symm hax), List.indexOf_cons_ne _ (Ne.symm hbx)]
      exact Nat.succ_lt_succ hab

theorem computeMatchedRules_sorted (v : MatchView) (e : Entity) (L : List (Nat × Nat))
    (hn : (v.rules.map Prod.fst).Nodup)
    (h : computeMatchedRules v e = some L) :
    L.Pairwise (fun a b =>
      b.2 < a.2 ∨
      (b.2 = a.2 ∧
        (v.rules.map Prod.fst).indexOf b.1 < (v.rules.map Prod.fst).indexOf a.1)) := by
  unfold computeMatchedRules at h
  cases hb : computeBaseAux v e v.rules with
  | none => rw [hb] at h; cases h
  | some base =>
    rw [hb] at h
    rw [Option.map_some'] at h
    obtain rfl := (Option.some_inj.mp h).symm
    have hsub := computeBaseAux_sublist v e v.rules base hb
    have hkeys := nodup_pairwise_idxOf (v.rules.map Prod.fst) hn
    have hbasefst := hkeys.sublist hsub
    have hbase : base.Pairwise (fun a b =>
        (v.rules.map Prod.fst).indexOf a.1 < (v.rules.map Prod.fst).indexOf b.1) := by
      rw [List.pairwise_map] at hbasefst
      exact hbasefst
    have hsorted := isortAsc_pairwise (fun p => p.2) _ base hbase
    rw [List.pairwise_reverse]
    exact hsorted


/-! ### Transitive removal clears every side table -/

/-- No side table (and no lens observer set) retains an entry for `d`. -/
def ClearedFor (c : AppCtx) (d : Entity) : Prop :=
  d ∉ c.treeTbl ∧ d ∉ c.styleTbl ∧ d ∉ c.cacheTbl ∧ d ∉ c.dataTbl ∧ d ∉ c.viewsTbl ∧
  ∀ p ∈ c.observers, d ∉ p.2

theorem removeOne_cleared_self (c : AppCtx) (d : Entity) : ClearedFor (removeOne c d) d := by
  unfold removeOne ClearedFor
  refine ⟨?_, ?_, ?_, ?_, ?_, ?_⟩
  · simp [List.mem_filter]
  · simp [List.mem_filter]
  · simp [List.mem_filter]
  · simp [List.mem_filter]
  · simp [List.mem_filter]
  · intro p hp
    simp only [List.mem_filter, List.mem_map] at hp
    obtain ⟨⟨q, hq, rfl⟩, hne⟩ := hp
    simp [List.mem_filter]

theorem removeOne_cleared_mono (c : AppCtx) (x d : Entity) (h : ClearedFor c d) :
    ClearedFor (removeOne c x) d := by
  unfold removeOne ClearedFor
  obtain ⟨h1, h2, h3, h4, h5, h6⟩ := h
  refine ⟨?_, ?_, ?_, ?_, ?_, ?_⟩
  · intro hm
    exact h1 (List.mem_of_mem_filter hm)
  · intro hm
    exact h2 (List.mem_of_mem_filter hm)
  · intro hm
    exact h3 (List.mem_of_mem_filter hm)
  · intro hm
    exact h4 (List.mem_of_mem_filter hm)
  · intro hm
    exact h5 (List.mem_of_mem_filter hm)
  · intro p hp
    simp only [List.mem_filter, List.mem_map] at hp
    obtain ⟨⟨q, hq, rfl⟩, hne⟩ := hp
    intro hm
    exact h6 q hq (List.mem_of_mem_filter hm)

theorem foldl_removeOne_cleared_mono (dl : List Entity) (c : AppCtx) (d : Entity)
    (h : ClearedFor c d) : ClearedFor (dl.foldl removeOne c) d := by
  induction dl generalizing c with
  | nil => exact h
  | cons x xs ih => exact ih (removeOne c x) (removeOne_cleared_mono c x d h)

theorem foldl_removeOne_cleared (dl : List Entity) (c : AppCtx) (d : Entity)
    (hd : d ∈ dl) : ClearedFor (dl.foldl removeOne c) d := by
  induction dl generalizing c with
  | nil => cases hd
  | cons x xs ih =>
    rcases List.mem_cons.mp hd with rfl | hd2
    · exact foldl_removeOne_cleared_mono xs (removeOne c d) d (removeOne_cleared_self c d)
    · exact ih (removeOne c x) hd2

/-! ### Phase structure of a pass -/

theorem styleSystem_phases (cx : Ctx) (res : RunResult) (h : styleSystem cx = some res) :
    (cx.restyle = [] →
      res.phases = [Phase.inlineInherit] ∧ res.delivered = [] ∧ res.restyle = cx.restyle) ∧
    (cx.restyle ≠ [] →
      res.phases = [Phase.inlineInherit, Phase.matching, Phase.sharedInherit] ∧
      res.restyle = []) := by
  unfold styleSystem at h
  split at h
  · next hempty =>
    obtain rfl := (Option.some_inj.mp h).symm
    constructor
    · intro _
      exact ⟨rfl, rfl, rfl⟩
    · intro hne
      exact absurd (List.isEmpty_iff.mp hempty) hne
  · next hempty =>
    split at h
    · cases h
    · next st hrl =>
      obtain rfl := (Option.some_inj.mp h).symm
      constructor
      · intro hre
        exact absurd (by rw [hre]; rfl) hempty
      · intro _
        exact ⟨rfl, rfl⟩


/-- Set-equal class lists (missing record read as the empty set) give equal
`has_class` answers. -/
theorem hasClass_congr_of_setEq (v : MatchView) (e1 e2 : Entity)
    (h : listSetEqB ((v.classes e1).getD []) ((v.classes e2).getD []) = true) (n : String) :
    v.hasClass e1 n = v.hasClass e2 n := by
  have hc := listSetEqB_contains h n
  unfold MatchView.hasClass
  cases h1 : v.classes e1 with
  | none =>
    cases h2 : v.classes e2 with
    | none => rfl
    | some c2 =>
      rw [h1, h2] at hc
      simpa using hc
  | some c1 =>
    cases h2 : v.classes e2 with
    | none =>
      rw [h1, h2] at hc
      simpa using hc
    | some c2 =>
      rw [h1, h2] at hc
      simpa using hc

/-- Concrete removal context for the C10 witness. -/
def appC10 : AppCtx :=
  { tree := t1
    treeTbl := [0, 1, 2, 3, 4, 5]
    styleTbl := [0, 1, 2, 3, 4, 5]
    cacheTbl := [0, 1, 2, 3, 4, 5]
    dataTbl := [0, 1, 2, 3, 4, 5]
    viewsTbl := [0, 1, 2, 3, 4, 5]
    observers := [(7, [2, 3]), (8, [1])]
    captured := some 3
    restyleFlag := false
    relayoutFlag := false
    redrawFlag := false }

/-! ### The claims, settled -/

/-- C1, counterexample: in `cxC1` the siblings `3` and `4` satisfy every
hypothesis of the claim (identical element kind, ids, class sets and
pseudo-class flags, both middle children, no positional selector), yet the
pass serves entity `3` from entity `2`'s cache entry and assigns it the empty
list although full matching — which consults the disabled store the identity
check never compares — matches the `:disabled` rule for `3`. -/
theorem claim1_cex : ¬ ClaimC1 cxC1 := by
  intro h
  have h2 := h 3 4 1 (some []) (some []) (by decide) (by decide) (by decide) (by decide)
    (by decide) (by decide) (by decide) (by decide) (by decide) (by decide) (by decide)
    (by decide) (by decide)
  exact absurd (h2.2.1 [] rfl) (by decide)

/-- C1, amended: for siblings with identical components under one layout
parent, the pass-assigned matched-rule lists are equal and agree with full
matching, provided additionally that every candidate selector is
cache-determined (no positional or `:enabled`/`:disabled` component in its
subject compound, no sibling combinator at the subject, non-empty type/id
names) and every dirty entity has class and pseudo-class records. -/
theorem claim1_thm (cx : Ctx) (e1 e2 p : Entity)
    (hrun : (styleSystem cx).isSome = true)
    (hsafe : cacheSafeRules cx.rules = true)
    (hrec : recordsPresentB cx = true)
    (hp1 : cx.tree.parentOf e1 = some p) (hp2 : cx.tree.parentOf e2 = some p)
    (hel : cx.element e1 = cx.element e2)
    (hid : cx.ids e1 = cx.ids e2)
    (hcl : listSetEqB ((cx.classes e1).getD []) ((cx.classes e2).getD []) = true)
    (hpc : cx.pseudoClasses e1 = cx.pseudoClasses e2)
    (_hf1 : cx.tree.isFirstChild e1 = false) (_hl1 : cx.tree.isLastChild e1 = false)
    (_hf2 : cx.tree.isFirstChild e2 = false) (_hl2 : cx.tree.isLastChild e2 = false)
    (hd1 : e1 ∈ cx.restyle) (hd2 : e2 ∈ cx.restyle)
    (ht1 : e1 ∈ cx.tree.bfs) (ht2 : e2 ∈ cx.tree.bfs) :
    sysAssigned cx e1 = sysAssigned cx e2 ∧
    sysAssigned cx e1 = some (computeMatchedRules (passView cx) e1) ∧
    sysAssigned cx e2 = some (computeMatchedRules (passView cx) e2) := by
  obtain ⟨res, hres⟩ := Option.isSome_iff_exists.mp hrun
  have hcongr : computeMatchedRules (passView cx) e1 = computeMatchedRules (passView cx) e2 := by
    apply computeMatchedRules_congr
    · show cx.tree.parentOf e1 = cx.tree.parentOf e2
      rw [hp1, hp2]
    · show (cx.element e1).getD ("") = (cx.element e2).getD ("")
      rw [hel]
    · show (cx.ids e1).getD ("") = (cx.ids e2).getD ("")
      rw [hid]
    · exact hasClass_congr_of_setEq (passView cx) e1 e2 hcl
    · exact hpc
    · exact hsafe
  have hs1 := styleSystem_assigned_some cx res e1 hres hd1 ht1
  have hs2 := styleSystem_assigned_some cx res e2 hres hd2 ht2
  obtain ⟨L1, hL1⟩ := Option.isSome_iff_exists.mp hs1
  obtain ⟨L2, hL2⟩ := Option.isSome_iff_exists.mp hs2
  have hfull1 := styleSystem_sound cx res hres hsafe hrec e1 L1 hL1
  have hfull2 := styleSystem_sound cx res hres hsafe hrec e2 L2 hL2
  unfold sysAssigned
  rw [hres]
  simp only [Option.map_some']
  refine ⟨?_, ?_, ?_⟩
  · rw [hL1, hL2]
    have hLL : (some L1 : Option (List (Nat × Nat))) = some L2 := by
      rw [← hfull1, ← hfull2, hcongr]
    rw [Option.some_inj.mp hLL]
  · rw [hL1, hfull1]
  · rw [hL2, hfull2]

/-- Witness for the amended C1 at `cxC1w` and the middle siblings `3`, `4`. -/
theorem claim1_wit : sysAssigned cxC1w 3 = sysAssigned cxC1w 4 :=
  (claim1_thm cxC1w 3 4 1 (by decide) (by decide) (by decide) (by decide) (by decide)
    (by decide) (by decide) (by decide) (by decide) (by decide) (by decide) (by decide)
    (by decide) (by decide) (by decide) (by decide) (by decide)).1

/-- C2, counterexample: in `vC2` entity `1` has class record `[a]` and entity
`2` has no class record — the claim-level components differ — yet
`has_same_selector` reports the entities as identical, because the class
comparison is skipped when either record is missing. -/
theorem claim2_cex : ¬ ClaimC2 vC2 := by
  intro h
  exact absurd (h 1 2 (by decide)) (by decide)

/-- C2, amended: a positive identity check guarantees equal element kinds and
ids (missing records defaulting to the empty string), and equal class sets
resp. pseudo-class bit patterns only when both entities carry the respective
record; pairs with a record on one side only can be reported identical. -/
theorem claim2_thm (v : MatchView) (e1 e2 : Entity) (h : has_same_selector v e1 e2 = true) :
    (v.element e1).getD ("") = (v.element e2).getD ("") ∧
    (v.ids e1).getD ("") = (v.ids e2).getD ("") ∧
    (∀ c1 c2, v.classes e1 = some c1 → v.classes e2 = some c2 → listSetEqB c1 c2 = true) ∧
    (∀ f1 f2, v.pseudoClasses e1 = some f1 → v.pseudoClasses e2 = some f2 → f1 = f2) :=
  hss_spec v e1 e2 h

theorem claim2_wit :
    (vC2.element 1).getD ("") = (vC2.element 2).getD ("") :=
  (claim2_thm vC2 1 2 (by decide)).1

/-- C3, counterexample: in `cxC3a`, entity `4` is served from entity `3`'s
cache entry whose rule `1` (`:nth-child(1) + .item`) carries a positional
component in its non-subject compound — the invalidation scan
(`selector.iter()`) sees only the subject compound, so the entry is reused
instead of being discarded. -/
theorem claim3_cex : ¬ ClaimC3 := by
  intro h
  have h2 := h cxC3a 4 [4] (some [(1, 2048)]) (by decide) (by decide) (by decide)
  exact absurd h2 (by decide)

/-- C3, amended: a cache entry is skipped (and full matching forced) exactly
when one of its rules carries a positional component in the subject
(rightmost) compound of one of its selectors; consequently a reused rule list
never contains such a rule.  Positional components left of a combinator do
not invalidate the entry. -/
theorem claim3_thm (v : MatchView) (e : Entity) (cache : List CacheEntry)
    (rules : List (Nat × Nat)) (h : findCacheMatch v e cache = some rules) :
    rules.all (fun rp => !(ruleHasPositional v.rules rp.1)) = true := by
  obtain ⟨entry, hmem, hss, rfl, hnopos⟩ := findCacheMatch_spec v e cache rules h
  exact hnopos

theorem claim3_wit :
    ([(1, 1024)] : List (Nat × Nat)).all
      (fun rp => !(ruleHasPositional (passView cxC1w).rules rp.1)) = true :=
  claim3_thm (passView cxC1w) 3 [{ entity := 2, rules := [(1, 1024)] }] [(1, 1024)] (by decide)

/-- C4: the matched-rule list is ordered by specificity descending, and among
equal specificities the rule declared later in the (ordered) rule set comes
first, hence wins the cascade. -/
theorem claim4_thm (v : MatchView) (e : Entity) (L : List (Nat × Nat))
    (hn : (v.rules.map Prod.fst).Nodup)
    (h : computeMatchedRules v e = some L) :
    L.Pairwise (fun a b =>
      b.2 < a.2 ∨
      (b.2 = a.2 ∧
        (v.rules.map Prod.fst).indexOf b.1 < (v.rules.map Prod.fst).indexOf a.1)) :=
  computeMatchedRules_sorted v e L hn h

theorem claim4_wit :
    computeMatchedRules vC4 3 = some [(2, 1024), (1, 1024)] ∧
    ([(2, 1024), (1, 1024)] : List (Nat × Nat)).Pairwise (fun a b =>
      b.2 < a.2 ∨
      (b.2 = a.2 ∧
        (vC4.rules.map Prod.fst).indexOf b.1 < (vC4.rules.map Prod.fst).indexOf a.1)) :=
  ⟨by decide, claim4_thm vC4 3 [(2, 1024), (1, 1024)] (by decide) (by decide)⟩

/-- C5, counterexample: in `cxC1` entity `3` is processed (assigned the empty
list from a cache hit) but no cache entry is pushed for it — the push happens
only on the full-match path (`if compute_match`), not after a cache hit. -/
theorem claim5_cex : ¬ ClaimC5 cxC1 := by
  intro h
  exact absurd (h 3 (some []) [2, 5] (by decide) (by decide) (by decide)) (by decide)

/-- C5, amended: a cache entry is pushed exactly for the entities whose rules
were computed by full matching; an entity served from the cache is assigned
its list but no entry is pushed for it. -/
theorem claim5_thm (cx : Ctx) :
    sysCachePushes cx = sysFullMatched cx ∧
    (∀ e a hits full, sysAssigned cx e = some a → sysCacheHits cx = some hits →
      sysFullMatched cx = some full → (a.isSome = true ↔ (e ∈ full ∨ e ∈ hits))) := by
  constructor
  · unfold sysCachePushes sysFullMatched
    cases h : styleSystem cx with
    | none => rfl
    | some res =>
      simp only [Option.map_some']
      rw [(styleSystem_ghost cx res h).1]
  · intro e a hits full ha hh hf
    unfold sysAssigned at ha
    unfold sysCacheHits at hh
    unfold sysFullMatched at hf
    cases h : styleSystem cx with
    | none =>
      rw [h] at ha
      cases ha
    | some res =>
      rw [h] at ha hh hf
      simp only [Option.map_some'] at ha hh hf
      obtain rfl := (Option.some_inj.mp ha).symm
      obtain rfl := (Option.some_inj.mp hh).symm
      obtain rfl := (Option.some_inj.mp hf).symm
      exact (styleSystem_ghost cx res h).2 e

theorem claim5_wit :
    (some [] : Option (List (Nat × Nat))).isSome = true ↔
      (3 ∈ ([2, 5] : List Entity) ∨ 3 ∈ ([3, 4] : List Entity)) :=
  (claim5_thm cxC1).2 3 (some []) [3, 4] [2, 5] (by decide) (by decide) (by decide)

/-- C6, counterexample: for entity `2` of `vC6w`, which has no pseudo-class
flag record, evaluating the selector `:lang(en)` silently returns "no match"
instead of panicking — the `todo!()` sits inside the `if let` on the flag
record, whose `else` arm returns `false`. -/
theorem claim6_cex : ¬ ClaimC6 vC6w := by
  intro h
  exact absurd (h 2 (Sel.last [SimpleComponent.pseudo (PseudoClassSel.lang ("en"))]) 3
    (by decide)) (by decide)

/-- C6, amended: for an entity that carries a pseudo-class flag record,
evaluating a selector consisting of an unsupported pseudo-class (`:lang()`,
`:dir()`, or a custom pseudo-class) panics (`none`); for entities without a
flag record the match silently returns `false`. -/
theorem claim6_thm (v : MatchView) (e : Entity)
    (hrec : (v.pseudoClasses e).isSome = true) (s : String) (fuel : Nat) :
    matchSel v (fuel + 1) (Sel.last [SimpleComponent.pseudo (PseudoClassSel.lang s)]) e = none ∧
    matchSel v (fuel + 1) (Sel.last [SimpleComponent.pseudo (PseudoClassSel.dir s)]) e = none ∧
    matchSel v (fuel + 1) (Sel.last [SimpleComponent.pseudo (PseudoClassSel.custom s)]) e =
      none := by
  obtain ⟨bits, hb⟩ := Option.isSome_iff_exists.mp hrec
  refine ⟨?_, ?_, ?_⟩ <;>
    simp [matchSel, MatchView.matchCompound, MatchView.matchComponent, MatchView.matchNonTs, hb]

theorem claim6_wit :
    matchSel vC6w 3 (Sel.last [SimpleComponent.pseudo (PseudoClassSel.lang ("en"))]) 1 = none :=
  (claim6_thm vC6w 1 (by decide) ("en") 2).1

/-- C7: every pass runs inline inheritance exactly once; matching and shared
inheritance run only when the dirty set is non-empty; and a completed pass
that entered matching ends with an empty dirty set. -/
theorem claim7_thm (cx : Ctx) :
    (∀ ph, sysPhases cx = some ph → ph.count Phase.inlineInherit = 1) ∧
    (cx.restyle = [] → sysPhases cx = some [Phase.inlineInherit]) ∧
    (cx.restyle ≠ [] → (styleSystem cx).isSome = true →
      sysPhases cx = some [Phase.inlineInherit, Phase.matching, Phase.sharedInherit] ∧
      sysRestyle cx = some []) := by
  refine ⟨?_, ?_, ?_⟩
  · intro ph hph
    unfold sysPhases at hph
    cases h : styleSystem cx with
    | none =>
      rw [h] at hph
      cases hph
    | some res =>
      rw [h] at hph
      simp only [Option.map_some'] at hph
      obtain rfl := (Option.some_inj.mp hph).symm
      by_cases hre : cx.restyle = []
      · rw [((styleSystem_phases cx res h).1 hre).1]
        rfl
      · rw [((styleSystem_phases cx res h).2 hre).1]
        rfl
  · intro hre
    unfold sysPhases styleSystem
    rw [if_pos (by rw [hre]; rfl)]
    rfl
  · intro hre hsome
    obtain ⟨res, h⟩ := Option.isSome_iff_exists.mp hsome
    have hp := (styleSystem_phases cx res h).2 hre
    unfold sysPhases sysRestyle
    rw [h]
    simp only [Option.map_some']
    rw [hp.1, hp.2]
    exact ⟨rfl, rfl⟩

theorem claim7_wit :
    sysPhases cxC1w = some [Phase.inlineInherit, Phase.matching, Phase.sharedInherit] ∧
    sysRestyle cxC1w = some [] :=
  (claim7_thm cxC1w).2.2 (by decide) (by decide)

/-- C8, code bug: in `cxC8` the dirty set is empty; inline inheritance changes
entity `2`'s inline-inherited disabled value and records it in the redraw
list, but `style_system` delivers the redraw list to `needs_redraw` only
inside the non-empty-dirty-set branch, so nothing is delivered. -/
theorem claim8_thm :
    cxC8.restyle = [] ∧
    (inlineInheritanceSystem cxC8.tree cxC8.props).redraw = [2] ∧
    sysDelivered cxC8 = some [] :=
  ⟨rfl, by decide, by decide⟩

/-- C9: matching is a pure function of the (unmutated) view — re-running it
yields an identical matched-rule list and identical per-selector results.
In the source, matching borrows the context immutably and the only mutation
hook, `apply_selector_flags`, is a no-op. -/
theorem claim9_thm (v : MatchView) (e : Entity) :
    computeMatchedRules v e = computeMatchedRules v e ∧
    ∀ fuel s, matchSel v fuel s e = matchSel v fuel s e :=
  ⟨rfl, fun _ _ => rfl⟩

/-- C10: removing entity `a` removes every entity of `a`'s subtree from every
side table (tree, style maps, cached layout data, model data, views) and from
every lens observer set in the one `remove` call. -/
theorem claim10_thm (c : AppCtx) (a d : Entity) (hd : d ∈ branchList c.tree a) :
    d ∉ (removeEntity c a).treeTbl ∧ d ∉ (removeEntity c a).styleTbl ∧
    d ∉ (removeEntity c a).cacheTbl ∧ d ∉ (removeEntity c a).dataTbl ∧
    d ∉ (removeEntity c a).viewsTbl ∧
    ∀ p ∈ (removeEntity c a).observers, d ∉ p.2 := by
  unfold removeEntity
  exact foldl_removeOne_cleared (branchList c.tree a).reverse _ d (by simpa using hd)

theorem claim10_wit :
    (2 ∈ branchList appC10.tree 1) ∧ 2 ∉ (removeEntity appC10 1).treeTbl :=
  ⟨by decide, (claim10_thm appC10 1 2 (by decide)).1⟩

end Vizia
